import Mathlib

/-!
Shallow embedding of `airflights.py`, a pandas ETL pipeline that loads a
flight table and a weather table, normalizes them, joins them by calendar
date and derives analytic columns.

Modelling conventions:
* A cell value (`Scalar`) is one of: a float `NaN` (`na`), a datetime `NaT`
  (`nat_`), an integer, an exact rational standing for a float, a string, or
  a datetime (`dt`, measured in whole minutes since an epoch; all datetimes
  the pipeline constructs have minute resolution).
* A table is a list of column names together with rows; each row is an
  association list from column name to cell, aligned with the columns.
* pandas library primitives (`str.zfill`, `to_numeric`, `groupby(...).mean`,
  `merge(how="left")`, `to_datetime` on year/month/day parts, `.dt.to_period`)
  are modelled value-by-value following their documented behaviour; float
  rendering is modelled by exact decimal rendering of rationals.
-/

inductive Scalar : Type where
  | na : Scalar
  | nat_ : Scalar
  | int : ℤ → Scalar
  | num : ℚ → Scalar
  | str : String → Scalar
  | dt : ℤ → Scalar
  deriving DecidableEq, Repr

namespace Scalar

/-- Missing-value test: pandas `isna` is true for both `NaN` and `NaT`. -/
def isMissing : Scalar → Bool
  | na => true
  | nat_ => true
  | _ => false

/-- A cell that can live in a `datetime64` column (`NaT` counts). -/
def isDtLike : Scalar → Bool
  | dt _ => true
  | nat_ => true
  | _ => false

/-- A non-missing datetime cell. -/
def isDt : Scalar → Bool
  | dt _ => true
  | _ => false

/-- Numeric reading of a cell, used by mean/flag computations. -/
def numOf : Scalar → Option ℚ
  | int n => some (n : ℚ)
  | num q => some q
  | _ => none

end Scalar

/-- Value of a list of decimal digit characters, as Python `int` reads it. -/
def digitsVal (cs : List Char) : ℕ :=
  cs.foldl (fun a c => 10 * a + (c.toNat - 48)) 0

/-- True iff the string is nonempty and all decimal digits (`str.isdigit`). -/
def isDigitStr (s : String) : Bool :=
  !s.data.isEmpty && s.data.all Char.isDigit

/-- The regex substitution `\.0+$ -> ""`: drop a trailing run of zeros
together with the dot immediately before it, when the run reaches the end. -/
def stripDotZeros (s : String) : String :=
  let r := s.data.reverse
  let zs := r.takeWhile (· = '0')
  let rest := r.dropWhile (· = '0')
  if !zs.isEmpty && rest.head? = some '.' then String.mk rest.tail.reverse else s

/-- Python `str.zfill w`: left-pad with zeros to width `w`, keeping a
leading sign character in front of the padding. -/
def pyZfill (s : String) (w : ℕ) : String :=
  if w ≤ s.length then s
  else
    match s.data with
    | [] => String.mk (List.replicate w '0')
    | c :: cs =>
      if c = '+' || c = '-' then String.mk (c :: (List.replicate (w - s.length) '0' ++ cs))
      else String.mk (List.replicate (w - s.length) '0' ++ s.data)

/-- Least exponent `k ≤ 17` with `q * 10^k` integral, if any. -/
def decExp (q : ℚ) : Option ℕ :=
  (List.range 18).find? (fun k => (q * (10 : ℚ) ^ k).den = 1)

/-- Decimal rendering of a rational, modelling Python `str` of a float:
integral values render with a trailing `.0`; finite decimals render
exactly; anything else falls back to a string that is not all digits. -/
def ratToPyStr (q : ℚ) : String :=
  if q.den = 1 then toString q.num ++ ".0"
  else
    match decExp q with
    | some k =>
      let m := (q * (10 : ℚ) ^ k).num
      let sg := if m < 0 then "-" else ""
      let ds := toString m.natAbs
      let ds := if k + 1 ≤ ds.length then ds
                else String.mk (List.replicate (k + 1 - ds.length) '0') ++ ds
      sg ++ String.mk (ds.data.take (ds.length - k)) ++ "." ++ String.mk (ds.data.drop (ds.length - k))
    | none => toString q

/-- Python/pandas string form of a cell, as produced by `astype(str)`. -/
def pyStr : Scalar → String
  | .na => "nan"
  | .nat_ => "NaT"
  | .int n => toString n
  | .num q => ratToPyStr q
  | .str s => s
  | .dt t => "dt " ++ toString t

/-- Truncate a datetime (minutes) to its calendar day (`.dt.date`). -/
def truncDay (t : ℤ) : ℤ := 1440 * (t.fdiv 1440)

/-- Per-row body of `hhmm_to_datetime`: coerce the time code to a string,
strip a trailing `.0` remnant, zero-pad to 4 characters; a non-digit result
yields `NaT`; otherwise the timestamp is the date truncated to day plus the
first two characters as hours and the next two as minutes. -/
def hhmmCell (d : Scalar) (tc : Scalar) : Scalar :=
  let s := pyZfill (stripDotZeros (pyStr tc)) 4
  if isDigitStr s then
    match d with
    | .dt t =>
      .dt (truncDay t + 60 * (digitsVal (s.data.take 2) : ℤ) + (digitsVal ((s.data.drop 2).take 2) : ℤ))
    | _ => .nat_
  else .nat_

/-- Batch body of `hhmm_to_datetime` when both series are present: the
`.dt.date` accessor requires a datetime-typed date series; on any other
dtype the `try`/`except` block degrades the whole result to `NaT`. -/
def hhmmList (ds ts : List Scalar) : List Scalar :=
  if ds.all Scalar.isDtLike then List.zipWith hhmmCell ds ts
  else ds.map (fun _ => Scalar.nat_)

/-- `hhmm_to_datetime(date_series, time_series)`.  `none` models passing
Python `None`.  When `date_series` is `None` the guard's
`date_series.index` raises `AttributeError`; when only `time_series` is
`None` the result is an all-`NaT` series over the date index. -/
def hhmm_to_datetime (dss tss : Option (List Scalar)) : Except String (List Scalar) :=
  match dss, tss with
  | none, _ => .error "AttributeError: NoneType has no attribute index"
  | some ds, none => .ok (ds.map (fun _ => Scalar.nat_))
  | some ds, some ts => .ok (hhmmList ds ts)

/-! ## Table model -/

/-- A row: association list from column name to cell, aligned with the
owning table's column list. -/
abbrev Row := List (String × Scalar)

/-- An in-memory table: ordered column names plus rows. -/
structure Table where
  cols : List String
  rows : List Row
  deriving DecidableEq, Repr

/-- Read a cell by column name (first match; absent columns read as NaN). -/
def getCell : Row → String → Scalar
  | [], _ => Scalar.na
  | (k, v) :: r, c => if k = c then v else getCell r c

/-- The row has an entry under key `c`. -/
def hasKey (r : Row) (c : String) : Bool :=
  r.any (fun p => p.1 = c)

/-- Write a cell: replace in place when the key exists, else append,
matching pandas column assignment order. -/
def setCell (r : Row) (c : String) (v : Scalar) : Row :=
  if hasKey r c then r.map (fun p => if p.1 = c then (c, v) else p)
  else r ++ [(c, v)]

/-- `t[c] = f(row)` for every row: new columns are appended at the end. -/
def addCol (t : Table) (c : String) (f : Row → Scalar) : Table :=
  ⟨if c ∈ t.cols then t.cols else t.cols ++ [c],
   t.rows.map (fun r => setCell r c (f r))⟩

/-- `t[c] = g(t[c])` cell-wise (column assumed present). -/
def mapCol (t : Table) (c : String) (g : Scalar → Scalar) : Table :=
  addCol t c (fun r => g (getCell r c))

/-- Extract a column as a list of cells. -/
def colOf (t : Table) (c : String) : List Scalar :=
  t.rows.map (fun r => getCell r c)

/-- Assign a whole column from a computed list of cells. -/
def setColList (t : Table) (c : String) (vs : List Scalar) : Table :=
  ⟨if c ∈ t.cols then t.cols else t.cols ++ [c],
   (t.rows.zip vs).map (fun p => setCell p.1 c p.2)⟩

/-- Rename a column, keeping its position, in names and in row keys. -/
def renameCol (t : Table) (old new : String) : Table :=
  ⟨t.cols.map (fun c => if c = old then new else c),
   t.rows.map (fun r => r.map (fun p => if p.1 = old then (new, p.2) else p))⟩

/-- `str.upper` character by character. -/
def upperStr (s : String) : String :=
  String.mk (s.data.map Char.toUpper)

/-- Uppercase all column names (`[c.upper() for c in df.columns]`). -/
def upperCols (t : Table) : Table :=
  ⟨t.cols.map upperStr, t.rows.map (fun r => r.map (fun p => (upperStr p.1, p.2)))⟩

/-! ## Shared cell-level primitives -/

/-- `pat` occurs as a contiguous substring of `hay`. -/
def listHasInfix (pat : List Char) : List Char → Bool
  | [] => pat.isEmpty
  | c :: rest => pat.isPrefixOf (c :: rest) || listHasInfix pat rest

/-- `"CANCEL" in c` on an (upper-cased) column name. -/
def hasCancelSub (c : String) : Bool :=
  listHasInfix "CANCEL".data c.data

/-- Parse a decimal literal with optional sign and fraction part, the way
`pd.to_numeric` accepts plain numeric strings. -/
def parseDec (s : String) : Option ℚ :=
  let core (cs : List Char) : Option ℚ :=
    match cs.splitOn '.' with
    | [a] => if !a.isEmpty && a.all Char.isDigit then some (digitsVal a : ℚ) else none
    | [a, b] =>
      if (!a.isEmpty || !b.isEmpty) && a.all Char.isDigit && b.all Char.isDigit then
        some ((digitsVal a : ℚ) + (digitsVal b : ℚ) / (10 : ℚ) ^ b.length)
      else none
    | _ => none
  match s.data with
  | '-' :: t => (core t).map (fun q => -q)
  | '+' :: t => core t
  | cs => core cs

/-- `pd.to_numeric(v, errors="coerce")` on one cell. -/
def toNumeric : Scalar → Scalar
  | .int n => .int n
  | .num q => .num q
  | .str s => match parseDec s with | some q => .num q | none => .na
  | .dt t => .int t
  | .nat_ => .na
  | .na => .na

/-- Truncation toward zero, as Python `int()` / numpy `astype(int)`. -/
def ratTrunc (q : ℚ) : ℤ := q.num.tdiv q.den

/-- The explicit-cancellation coercion
`pd.to_numeric(col, errors="coerce").fillna(0).astype(int)` on one cell. -/
def cancelCoerce (v : Scalar) : ℤ :=
  match toNumeric v with
  | .int n => n
  | .num q => ratTrunc q
  | _ => 0

/-- `pd.to_datetime(v, errors="coerce")` on one cell.  Datetimes pass
through; missing values become `NaT`; integral numbers are timestamps;
string date parsing is not modelled and degrades to `NaT`. -/
def coerceDatetime : Scalar → Scalar
  | .dt t => .dt t
  | .int n => .dt n
  | .num q => if q.den = 1 then .dt q.num else .nat_
  | _ => .nat_

/-- Civil-calendar day number from year/month/day (Gregorian, day 0 =
1970-01-01), the standard days-from-civil algorithm. -/
def daysFromCivil (y m d : ℤ) : ℤ :=
  let y' := if m ≤ 2 then y - 1 else y
  let era := y'.fdiv 400
  let yoe := y' - era * 400
  let mp := (m + 9).emod 12
  let doy := (153 * mp + 2).fdiv 5 + d - 1
  let doe := yoe * 365 + yoe.fdiv 4 - yoe.fdiv 100 + doy
  era * 146097 + doe - 719468

/-- Year and month of a civil day number (inverse of `daysFromCivil`). -/
def civilYM (z : ℤ) : ℤ × ℤ :=
  let z' := z + 719468
  let era := z'.fdiv 146097
  let doe := z' - era * 146097
  let yoe := (doe - doe.fdiv 1460 + doe.fdiv 36524 - doe.fdiv 146096).fdiv 365
  let y := yoe + era * 400
  let doy := doe - (365 * yoe + yoe.fdiv 4 - yoe.fdiv 100)
  let mp := (5 * doy + 2).fdiv 153
  let m := mp + (if mp < 10 then 3 else -9)
  (if m ≤ 2 then y + 1 else y, m)

/-- Days in a Gregorian month. -/
def daysInMonth (y m : ℤ) : ℤ :=
  if m = 2 then (if y.emod 4 = 0 ∧ (y.emod 100 ≠ 0 ∨ y.emod 400 = 0) then 29 else 28)
  else if m = 4 ∨ m = 6 ∨ m = 9 ∨ m = 11 then 30 else 31

/-- Integer reading of a cell for date assembly (integral floats and
numeric strings accepted, as `to_datetime` on year/month/day columns). -/
def intOf : Scalar → Option ℤ
  | .int n => some n
  | .num q => if q.den = 1 then some q.num else none
  | .str s => match parseDec s with
              | some q => if q.den = 1 then some q.num else none
              | none => none
  | _ => none

/-- `pd.to_datetime(df[["YEAR","MONTH","DAY"]], errors="coerce")` on one
row's components: invalid combinations become `NaT`. -/
def ymdToDate (y m d : Scalar) : Scalar :=
  match intOf y, intOf m, intOf d with
  | some yv, some mv, some dv =>
    if 1 ≤ mv ∧ mv ≤ 12 ∧ 1 ≤ dv ∧ dv ≤ daysInMonth yv mv then
      .dt (1440 * daysFromCivil yv mv dv)
    else .nat_
  | _, _, _ => .nat_

/-- `.dt.to_period("M")` on one cell: the year-month of the timestamp,
encoded as `12*year + (month-1)`; `NaT` stays missing. -/
def toPeriodM : Scalar → Scalar
  | .dt t => let ym := civilYM (t.fdiv 1440); .int (12 * ym.1 + (ym.2 - 1))
  | _ => .nat_

/-- Strict `> bound` comparison as pandas evaluates `series > 15`:
missing compares `False`. -/
def numGT (v : Scalar) (b : ℚ) : Bool :=
  match v with
  | .int n => decide (b < (n : ℚ))
  | .num q => decide (b < q)
  | _ => false

/-! ## Flight normalization (`fl` preparation block) -/

/-- Date derivation: build `FL_DATE` from `YEAR`/`MONTH`/`DAY` when those
exist and no `FL_DATE` column does; otherwise coerce an existing `FL_DATE`. -/
def dateFix (fl : Table) : Table :=
  if ("YEAR" ∈ fl.cols ∧ "MONTH" ∈ fl.cols ∧ "DAY" ∈ fl.cols) ∧ "FL_DATE" ∉ fl.cols then
    addCol fl "FL_DATE"
      (fun r => ymdToDate (getCell r "YEAR") (getCell r "MONTH") (getCell r "DAY"))
  else if "FL_DATE" ∈ fl.cols then mapCol fl "FL_DATE" coerceDatetime
  else fl

/-- The guarded `TIME_HOUR` datetime coercion. -/
def timeHourFix (fl : Table) : Table :=
  if "TIME_HOUR" ∈ fl.cols then mapCol fl "TIME_HOUR" coerceDatetime else fl

/-- The whole date block of the flight preparation. -/
def flDateStage (fl : Table) : Table :=
  timeHourFix (dateFix fl)

/-- One entry of the `time_map` loop: when the raw time column and
`FL_DATE` both exist, assign the derived timestamp column from
`hhmm_to_datetime(fl["FL_DATE"], fl[tcol])`. -/
def addTimeCol (t : Table) (tcol outcol : String) : Table :=
  if tcol ∈ t.cols ∧ "FL_DATE" ∈ t.cols then
    setColList t outcol (hhmmList (colOf t "FL_DATE") (colOf t tcol))
  else t

/-- The four `time_map` entries, in source order. -/
def timeStage (fl : Table) : Table :=
  let fl := addTimeCol fl "CRS_DEP_TIME" "SCHED_DEP_DATETIME"
  let fl := addTimeCol fl "DEP_TIME" "ACTUAL_DEP_DATETIME"
  let fl := addTimeCol fl "CRS_ARR_TIME" "SCHED_ARR_DATETIME"
  addTimeCol fl "ARR_TIME" "ACTUAL_ARR_DATETIME"

/-- `(actual - sched).dt.total_seconds() / 60` on one row's cells. -/
def dtDiffMin (a s : Scalar) : Scalar :=
  match a, s with
  | .dt x, .dt y => .num ((x : ℚ) - (y : ℚ))
  | _, _ => .na

/-- Delay derivation: prefer an explicit `DEP_DELAY` column (numeric
coercion), else subtract reconstructed departure timestamps, else NaN. -/
def delayStage (fl : Table) : Table :=
  if "DEP_DELAY" ∈ fl.cols then
    addCol fl "DEP_DELAY_MIN" (fun r => toNumeric (getCell r "DEP_DELAY"))
  else if "ACTUAL_DEP_DATETIME" ∈ fl.cols ∧ "SCHED_DEP_DATETIME" ∈ fl.cols then
    addCol fl "DEP_DELAY_MIN"
      (fun r => dtDiffMin (getCell r "ACTUAL_DEP_DATETIME") (getCell r "SCHED_DEP_DATETIME"))
  else addCol fl "DEP_DELAY_MIN" (fun _ => Scalar.na)

/-- Cancellation flag: scan for the first column whose name contains
`CANCEL`; coerce it when found, else infer from both actual timestamps
being missing. -/
def cancelStage (fl : Table) : Table :=
  match fl.cols.find? hasCancelSub with
  | some cc => addCol fl "CANCELLED_FLAG" (fun r => Scalar.int (cancelCoerce (getCell r cc)))
  | none =>
    addCol fl "CANCELLED_FLAG" (fun r =>
      if (if "ACTUAL_DEP_DATETIME" ∈ fl.cols then getCell r "ACTUAL_DEP_DATETIME"
          else Scalar.nat_).isMissing
         ∧ (if "ACTUAL_ARR_DATETIME" ∈ fl.cols then getCell r "ACTUAL_ARR_DATETIME"
            else Scalar.nat_).isMissing
      then Scalar.int 1 else Scalar.int 0)

/-- Canonicalize the airline column name, first match wins. -/
def airlineStage (fl : Table) : Table :=
  if "CARRIER" ∈ fl.cols ∧ "AIRLINE" ∉ fl.cols then
    renameCol fl "CARRIER" "AIRLINE"
  else if "OP_CARRIER" ∈ fl.cols ∧ "AIRLINE" ∉ fl.cols then
    renameCol fl "OP_CARRIER" "AIRLINE"
  else fl

/-- The fixed allow-list driving the `useful_cols` projection. -/
def usefulNames : List String :=
  ["FL_DATE", "AIRLINE", "TAIL_NUM", "FL_NUM", "ORIGIN", "DEST", "DEP_DELAY_MIN",
   "ARR_DELAY", "DISTANCE", "CANCELLED_FLAG", "SCHED_DEP_DATETIME", "ACTUAL_DEP_DATETIME"]

/-- `fl_small = fl[useful_cols]`: keep (in allow-list order) the allow-listed
columns that exist, dropping everything else. -/
def projectStage (fl : Table) : Table :=
  let cs := usefulNames.filter (fun c => c ∈ fl.cols)
  ⟨cs, fl.rows.map (fun r => cs.map (fun c => (c, getCell r c)))⟩

/-- The whole flight-preparation block of the script. -/
def flightsPrep (fl : Table) : Table :=
  projectStage (airlineStage (cancelStage (delayStage (timeStage (flDateStage fl)))))

/-! ## Weather normalization -/

/-- Weather-side date derivation (`DATE` from parts, or coercion). -/
def wxDateFix (wx : Table) : Table :=
  if "DATE" ∉ wx.cols ∧ ("YEAR" ∈ wx.cols ∧ "MONTH" ∈ wx.cols ∧ "DAY" ∈ wx.cols) then
    addCol wx "DATE"
      (fun r => ymdToDate (getCell r "YEAR") (getCell r "MONTH") (getCell r "DAY"))
  else if "DATE" ∈ wx.cols then mapCol wx "DATE" coerceDatetime
  else wx

/-- The guarded `STATION -> ORIGIN` rename. -/
def stationFix (wx : Table) : Table :=
  if "STATION" ∈ wx.cols ∧ "ORIGIN" ∉ wx.cols then renameCol wx "STATION" "ORIGIN" else wx

/-- Date derivation plus the `STATION -> ORIGIN` rename. -/
def wxNorm (wx : Table) : Table :=
  stationFix (wxDateFix wx)

/-- Column-level numeric-dtype test (`select_dtypes(include=[np.number])`):
every cell is an int, a float, or a float NaN. -/
def isNumericCol (t : Table) (c : String) : Bool :=
  t.rows.all (fun r =>
    match getCell r c with
    | .int _ => true
    | .num _ => true
    | .na => true
    | _ => false)

/-- Datetime group key of a cell; missing and non-datetime keys are
dropped by `groupby`. -/
def keyOf : Scalar → Option ℤ
  | .dt v => some v
  | _ => none

/-- Ascending insertion used to model `groupby`'s sorted keys. -/
def insertAsc (x : ℤ) : List ℤ → List ℤ
  | [] => [x]
  | y :: ys => if x ≤ y then x :: y :: ys else y :: insertAsc x ys

/-- Insertion sort on group keys. -/
def sortAsc : List ℤ → List ℤ
  | [] => []
  | x :: xs => insertAsc x (sortAsc xs)

/-- Mean of the non-missing numeric values of column `c` over `rows`
(pandas `mean`, `skipna` default): NaN when no value is present. -/
def meanCol (rows : List Row) (c : String) : Scalar :=
  let vs := rows.filterMap (fun r => (getCell r c).numOf)
  if vs.isEmpty then Scalar.na else Scalar.num (vs.sum / (vs.length : ℚ))

/-- `t.groupby(key)[cs].mean().reset_index()`: one row per distinct
non-missing key, keys sorted ascending, each selected column averaged
within its group. -/
def groupbyMean (t : Table) (key : String) (cs : List String) : Table :=
  let ks := sortAsc ((t.rows.filterMap (fun r => keyOf (getCell r key))).dedup)
  ⟨key :: cs,
   ks.map (fun k =>
     (key, Scalar.dt k) ::
       cs.map (fun c =>
         (c, meanCol (t.rows.filter (fun r => keyOf (getCell r key) = some k)) c)))⟩

/-- The numeric weather columns selected for aggregation. -/
def wxNumericCols (w : Table) : List String :=
  w.cols.filter (fun c => isNumericCol w c)

/-- The whole weather-preparation block: aggregate per date when possible,
else fall back to the raw (normalized) table. -/
def weatherPrep (wx : Table) : Table :=
  if wxNumericCols (wxNorm wx) ≠ [] ∧ "DATE" ∈ (wxNorm wx).cols then
    groupbyMean (wxNorm wx) "DATE" (wxNumericCols (wxNorm wx))
  else wxNorm wx

/-! ## Merge and derived columns -/

/-- Suffix rule of `pd.merge(..., suffixes=("", "_WX"))`: a right-side
column colliding with a left-side name gets `_WX` appended. -/
def sfx (lcols : List String) (c : String) : String :=
  if c ∈ lcols then c ++ "_WX" else c

/-- Key equality as pandas `merge` matches cells: ints and floats compare
numerically, and — unlike SQL joins — null keys are matched against each
other (`NaT` against `NaT` in datetime key columns, `NaN` against `NaN` in
float key columns), as the pandas `merge` documentation warns. -/
def scalarEq : Scalar → Scalar → Bool
  | .na, .na => true
  | .nat_, .nat_ => true
  | .dt a, .dt b => decide (a = b)
  | .int a, .int b => decide (a = b)
  | .int a, .num q => decide ((a : ℚ) = q)
  | .num q, .int a => decide (q = (a : ℚ))
  | .num a, .num b => decide (a = b)
  | .str a, .str b => decide (a = b)
  | _, _ => false

/-- `pd.merge(l, r, left_on=lk, right_on=rk, how="left", suffixes=("","_WX"))`:
every left row is emitted once per matching right row, or once with all
right-side cells `NaN` when no right row matches. -/
def pdMergeLeft (l r : Table) (lk rk : String) : Table :=
  let rcols := r.cols.map (sfx l.cols)
  ⟨l.cols ++ rcols,
   l.rows.flatMap (fun lr =>
     match r.rows.filter (fun rr => scalarEq (getCell rr rk) (getCell lr lk)) with
     | [] => [lr ++ rcols.map (fun c => (c, Scalar.na))]
     | ms => ms.map (fun rr => lr ++ r.cols.map (fun c => (sfx l.cols c, getCell rr c))))⟩

/-- The merge step: join on `FL_DATE == DATE` when both key columns exist,
else fall back to the flight table alone. -/
def mergeStep (flS wxA : Table) : Table :=
  if "FL_DATE" ∈ flS.cols ∧ "DATE" ∈ wxA.cols then
    pdMergeLeft flS wxA "FL_DATE" "DATE"
  else flS

/-- The derived-columns block: re-coerce `FL_DATE` (guarded), then read
`m["FL_DATE"]` and `m["DEP_DELAY_MIN"]` unguarded — a missing column here
raises `KeyError` — and add `YEAR_MONTH` and `LONG_DELAY_FLAG`. -/
def flDateRecoerce (mg : Table) : Table :=
  if "FL_DATE" ∈ mg.cols then mapCol mg "FL_DATE" coerceDatetime else mg

def ymStep (m : Table) : Table :=
  addCol m "YEAR_MONTH" (fun r => toPeriodM (getCell r "FL_DATE"))

def delayRecoerce (m : Table) : Table :=
  addCol m "DEP_DELAY_MIN" (fun r => toNumeric (getCell r "DEP_DELAY_MIN"))

def flagStep (m : Table) : Table :=
  addCol m "LONG_DELAY_FLAG"
    (fun r => if numGT (getCell r "DEP_DELAY_MIN") 15 then Scalar.int 1 else Scalar.int 0)

def deriveStep (mg : Table) : Except String Table :=
  if "FL_DATE" ∉ (flDateRecoerce mg).cols then .error "KeyError: FL_DATE"
  else if "DEP_DELAY_MIN" ∉ (ymStep (flDateRecoerce mg)).cols then
    .error "KeyError: DEP_DELAY_MIN"
  else .ok (flagStep (delayRecoerce (ymStep (flDateRecoerce mg))))

/-- End-to-end data pipeline (loading and reporting aside): uppercase both
tables' column names, normalize flights and weather, merge, derive. -/
def pipeline (flRaw wxRaw : Table) : Except String Table :=
  let flS := flightsPrep (upperCols flRaw)
  let wxA := weatherPrep (upperCols wxRaw)
  deriveStep (mergeStep flS wxA)

/-! ## Concrete tables used to instantiate the theorems -/

instance : DecidableEq (Except String Table) :=
  fun a b =>
    match a, b with
    | .ok x, .ok y => if h : x = y then isTrue (by rw [h]) else isFalse (by simp [h])
    | .error x, .error y => if h : x = y then isTrue (by rw [h]) else isFalse (by simp [h])
    | .ok _, .error _ => isFalse (by simp)
    | .error _, .ok _ => isFalse (by simp)

/-- A flight table whose explicit cancellation column holds the value 2. -/
def cancelTwoTable : Table := ⟨["CANCELLED"], [[("CANCELLED", Scalar.int 2)]]⟩

/-- A one-row flight table with a plain date. -/
def oneFlightTable : Table := ⟨["FL_DATE"], [[("FL_DATE", Scalar.dt 0)]]⟩

/-- A weather table with a date column, duplicate dates, and no numeric
column, so aggregation falls back to the raw table. -/
def dupDateWeather : Table :=
  ⟨["DATE", "NOTE"],
   [[("DATE", Scalar.dt 0), ("NOTE", Scalar.str "a")],
    [("DATE", Scalar.dt 0), ("NOTE", Scalar.str "b")]]⟩

/-- A flight table with no date column and no year/month/day columns. -/
def noDateFlights : Table := ⟨["ORIGIN"], [[("ORIGIN", Scalar.str "SEA")]]⟩

/-- A small well-formed weather table: one date, one numeric column. -/
def oneDayWeather : Table :=
  ⟨["DATE", "TMAX"], [[("DATE", Scalar.dt 0), ("TMAX", Scalar.int 70)]]⟩

/-- Weather rows realizing the spec example: two rows on one date with
`TMAX` 50 and 60, one row on another date with 70. -/
def meanExampleWeather : Table :=
  ⟨["DATE", "TMAX"],
   [[("DATE", Scalar.dt 0), ("TMAX", Scalar.int 60)],
    [("DATE", Scalar.dt 1440), ("TMAX", Scalar.int 70)],
    [("DATE", Scalar.dt 0), ("TMAX", Scalar.int 50)]]⟩

/-- A merged-shape table carrying a delay of exactly 16 minutes. -/
def delay16Table : Table :=
  ⟨["FL_DATE", "DEP_DELAY_MIN"],
   [[("FL_DATE", Scalar.dt 0), ("DEP_DELAY_MIN", Scalar.num 16)]]⟩

/-- One-row flight table with symbolic date and string time codes, used to
examine the reconstructed-delay path. -/
def codesTable (D : ℤ) (s a : String) : Table :=
  ⟨["FL_DATE", "CRS_DEP_TIME", "DEP_TIME"],
   [[("FL_DATE", Scalar.dt (1440 * D)), ("CRS_DEP_TIME", Scalar.str s),
     ("DEP_TIME", Scalar.str a)]]⟩

/-- Zero-padded 4-character string form of a time-code cell. -/
def padCode (tc : Scalar) : String := pyZfill (stripDotZeros (pyStr tc)) 4

/-- Hour part of a padded code (first two characters). -/
def codeHH (tc : Scalar) : ℕ := digitsVal ((padCode tc).data.take 2)

/-- Minute part of a padded code (third and fourth characters). -/
def codeMM (tc : Scalar) : ℕ := digitsVal (((padCode tc).data.drop 2).take 2)

/-- Two flight rows on distinct dates, aligned with their columns; the
second date has no weather row. -/
def twoFlights : Table :=
  ⟨["FL_DATE", "ORIGIN"],
   [[("FL_DATE", Scalar.dt 0), ("ORIGIN", Scalar.str "SEA")],
    [("FL_DATE", Scalar.dt 2880), ("ORIGIN", Scalar.str "PDX")]]⟩

/-- Rows of a pipeline result, empty when the run aborted. -/
def rowsOfOk : Except String Table → List Row
  | .ok m => m.rows
  | .error _ => []

/-- Spec-side arithmetic mean of a list of values (missing when empty). -/
def specMean (vs : List ℚ) : Scalar :=
  if vs.isEmpty then Scalar.na else Scalar.num (vs.sum / (vs.length : ℚ))

/-- Spec-side reading of the numeric values of column `c` over the rows of
`t` whose date equals day `k`. -/
def dateGroupVals (t : Table) (k : ℤ) (c : String) : List ℚ :=
  (t.rows.filter (fun r => getCell r "DATE" = Scalar.dt k)).filterMap
    (fun r => (getCell r c).numOf)

/-! ## Basic lemmas about the table operations -/

theorem getCell_cons (k : String) (v : Scalar) (r : Row) (c : String) :
    getCell ((k, v) :: r) c = if k = c then v else getCell r c := rfl

theorem hasKey_cons (k : String) (v : Scalar) (r : Row) (c : String) :
    hasKey ((k, v) :: r) c = (decide (k = c) || hasKey r c) := by
  simp [hasKey]

theorem getCell_eq_na_of_not_hasKey (r : Row) (c : String) (h : hasKey r c = false) :
    getCell r c = Scalar.na := by
  induction r with
  | nil => rfl
  | cons q rs ih =>
    obtain ⟨k, w⟩ := q
    rw [hasKey_cons] at h
    simp only [Bool.or_eq_false_iff, decide_eq_false_iff_not] at h
    rw [getCell_cons, if_neg h.1]
    exact ih h.2

theorem getCell_mapReplace_same (r : Row) (c : String) (v : Scalar) (h : hasKey r c = true) :
    getCell (r.map (fun p => if p.1 = c then (c, v) else p)) c = v := by
  induction r with
  | nil => simp [hasKey] at h
  | cons p rs ih =>
    obtain ⟨k, w⟩ := p
    by_cases hk : k = c
    · simp [getCell_cons, hk]
    · rw [hasKey_cons] at h
      simp only [List.map_cons, if_neg hk, getCell_cons, if_neg hk]
      exact ih (by
        rcases Bool.or_eq_true_iff.mp h with h | h
        · exact absurd (of_decide_eq_true h) hk
        · exact h)

theorem getCell_mapReplace_ne (r : Row) (c c' : String) (v : Scalar) (h : c' ≠ c) :
    getCell (r.map (fun p => if p.1 = c then (c, v) else p)) c' = getCell r c' := by
  induction r with
  | nil => rfl
  | cons p rs ih =>
    obtain ⟨k, w⟩ := p
    by_cases hk : k = c
    · simp only [List.map_cons, if_pos hk, getCell_cons]
      rw [if_neg (fun hc => h hc.symm), if_neg (hk ▸ fun hc => h hc.symm), ih]
    · simp only [List.map_cons, if_neg hk, getCell_cons, ih]

theorem getCell_append (r p : Row) (c : String) :
    getCell (r ++ p) c = (if hasKey r c then getCell r c else getCell p c) := by
  induction r with
  | nil => simp [hasKey, getCell]
  | cons q rs ih =>
    obtain ⟨k, w⟩ := q
    by_cases hk : k = c
    · subst hk; simp [getCell_cons, hasKey_cons]
    · simp [getCell_cons, hasKey_cons, hk, ih]

theorem getCell_setCell_same (r : Row) (c : String) (v : Scalar) :
    getCell (setCell r c v) c = v := by
  unfold setCell
  split
  · exact getCell_mapReplace_same r c v (by assumption)
  · rename_i h
    rw [getCell_append, if_neg (by simpa using h)]
    simp [getCell_cons]

theorem getCell_setCell_ne (r : Row) (c c' : String) (v : Scalar) (h : c' ≠ c) :
    getCell (setCell r c v) c' = getCell r c' := by
  unfold setCell
  split
  · exact getCell_mapReplace_ne r c c' v h
  · rw [getCell_append]
    split
    · rfl
    · rename_i hk
      rw [getCell_cons, if_neg (fun hc => h hc.symm),
        getCell_eq_na_of_not_hasKey r c' (by simpa using hk)]
      rfl

theorem mem_cols_addCol {x : String} (t : Table) (c : String) (f : Row → Scalar) :
    x ∈ (addCol t c f).cols ↔ x ∈ t.cols ∨ x = c := by
  unfold addCol
  split
  · rename_i h
    constructor
    · exact fun hx => Or.inl hx
    · rintro (hx | rfl)
      · exact hx
      · exact h
  · simp [List.mem_append]

theorem mem_cols_setColList {x : String} (t : Table) (c : String) (vs : List Scalar) :
    x ∈ (setColList t c vs).cols ↔ x ∈ t.cols ∨ x = c := by
  unfold setColList
  split
  · rename_i h
    constructor
    · exact fun hx => Or.inl hx
    · rintro (hx | rfl)
      · exact hx
      · exact h
  · simp [List.mem_append]

theorem mem_cols_renameCol {x : String} (t : Table) (old new : String) (hx : x ∈ t.cols)
    (hne : x ≠ old) : x ∈ (renameCol t old new).cols := by
  unfold renameCol
  simpa using ⟨x, hx, if_neg hne⟩

theorem getCell_renameRow (r : Row) (old new c : String) (h1 : c ≠ old) (h2 : c ≠ new) :
    getCell (r.map (fun p => if p.1 = old then (new, p.2) else p)) c = getCell r c := by
  induction r with
  | nil => rfl
  | cons p rs ih =>
    obtain ⟨k, w⟩ := p
    by_cases hk : k = old
    · simp only [List.map_cons, if_pos hk, getCell_cons]
      rw [if_neg (fun hc => h2 hc.symm), if_neg (hk ▸ fun hc => h1 hc.symm), ih]
    · simp only [List.map_cons, if_neg hk, getCell_cons, ih]

theorem getCell_projRow (cs : List String) (r : Row) (c : String) :
    getCell (cs.map (fun c0 => (c0, getCell r c0))) c
      = (if c ∈ cs then getCell r c else Scalar.na) := by
  induction cs with
  | nil => simp [getCell]
  | cons c0 rest ih =>
    by_cases hc : c0 = c
    · subst hc; simp [getCell_cons]
    · simp [getCell_cons, hc, ih, Ne.symm hc]

theorem rows_length_addCol (t : Table) (c : String) (f : Row → Scalar) :
    (addCol t c f).rows.length = t.rows.length := by
  simp [addCol]

/-! ## Lemmas about the flight-normalization stages -/

theorem cols_dateFix_sub {x : String} (t : Table) (h : x ∈ (dateFix t).cols) :
    x ∈ t.cols ∨ x = "FL_DATE" := by
  unfold dateFix at h
  split at h
  · exact (mem_cols_addCol _ _ _).mp h
  · split at h
    · exact (mem_cols_addCol _ _ _).mp h
    · exact Or.inl h

theorem cols_timeHourFix_sub {x : String} (t : Table) (h : x ∈ (timeHourFix t).cols) :
    x ∈ t.cols ∨ x = "TIME_HOUR" := by
  unfold timeHourFix at h
  split at h
  · exact (mem_cols_addCol _ _ _).mp h
  · exact Or.inl h

theorem cols_flDateStage_sub {x : String} (t : Table) (h : x ∈ (flDateStage t).cols) :
    x ∈ t.cols ∨ x = "FL_DATE" ∨ x = "TIME_HOUR" := by
  unfold flDateStage at h
  rcases cols_timeHourFix_sub _ h with h | h
  · rcases cols_dateFix_sub _ h with h | h
    · exact Or.inl h
    · exact Or.inr (Or.inl h)
  · exact Or.inr (Or.inr h)

theorem cols_addTimeCol_sub {x : String} (t : Table) (a b : String)
    (h : x ∈ (addTimeCol t a b).cols) : x ∈ t.cols ∨ x = b := by
  unfold addTimeCol at h
  split at h
  · exact (mem_cols_setColList _ _ _).mp h
  · exact Or.inl h

theorem cols_timeStage_sub {x : String} (t : Table) (h : x ∈ (timeStage t).cols) :
    x ∈ t.cols ∨ x ∈ ["SCHED_DEP_DATETIME", "ACTUAL_DEP_DATETIME",
      "SCHED_ARR_DATETIME", "ACTUAL_ARR_DATETIME"] := by
  unfold timeStage at h
  rcases cols_addTimeCol_sub _ _ _ h with h | h
  · rcases cols_addTimeCol_sub _ _ _ h with h | h
    · rcases cols_addTimeCol_sub _ _ _ h with h | h
      · rcases cols_addTimeCol_sub _ _ _ h with h | h
        · exact Or.inl h
        · exact Or.inr (by simp [h])
      · exact Or.inr (by simp [h])
    · exact Or.inr (by simp [h])
  · exact Or.inr (by simp [h])

theorem cols_delayStage_sub {x : String} (t : Table) (h : x ∈ (delayStage t).cols) :
    x ∈ t.cols ∨ x = "DEP_DELAY_MIN" := by
  unfold delayStage at h
  split at h
  · exact (mem_cols_addCol _ _ _).mp h
  · split at h
    · exact (mem_cols_addCol _ _ _).mp h
    · exact (mem_cols_addCol _ _ _).mp h

/-- If no input column name contains `CANCEL`, neither does any column
name after date/time/delay derivation, so the scan finds nothing. -/
theorem find_cancel_none (t : Table) (h : ∀ c ∈ t.cols, hasCancelSub c = false) :
    (delayStage (timeStage (flDateStage t))).cols.find? hasCancelSub = none := by
  rw [List.find?_eq_none]
  intro x hx
  rcases cols_delayStage_sub _ hx with hx | hx
  · rcases cols_timeStage_sub _ hx with hx | hx
    · rcases cols_flDateStage_sub _ hx with hx | hx | hx
      · simp [h x hx]
      · subst hx; decide
      · subst hx; decide
    · fin_cases hx <;> decide
  · subst hx; decide

theorem ite_flag_int (P : Prop) [Decidable P] :
    ∃ k : ℤ, (if P then Scalar.int 1 else Scalar.int 0) = Scalar.int k ∧ (k = 0 ∨ k = 1) := by
  by_cases h : P
  · exact ⟨1, if_pos h, Or.inr rfl⟩
  · exact ⟨0, if_neg h, Or.inl rfl⟩

theorem flag_cancelStage (t : Table) (r : Row) (hr : r ∈ (cancelStage t).rows) :
    ∃ k : ℤ, getCell r "CANCELLED_FLAG" = Scalar.int k ∧
      (t.cols.find? hasCancelSub = none → (k = 0 ∨ k = 1)) := by
  unfold cancelStage at hr
  cases hfind : t.cols.find? hasCancelSub with
  | some cc =>
    rw [hfind] at hr
    simp only [addCol, List.mem_map] at hr
    obtain ⟨r0, _, rfl⟩ := hr
    exact ⟨cancelCoerce (getCell r0 cc), getCell_setCell_same _ _ _,
      fun hc => Option.noConfusion hc⟩
  | none =>
    rw [hfind] at hr
    simp only [addCol, List.mem_map] at hr
    obtain ⟨r0, _, rfl⟩ := hr
    rw [getCell_setCell_same]
    exact (ite_flag_int _).imp (fun k hk => ⟨hk.1, fun _ => hk.2⟩)

theorem flag_airlineStage (t : Table) (r : Row) (hr : r ∈ (airlineStage t).rows) :
    ∃ r0 ∈ t.rows, getCell r "CANCELLED_FLAG" = getCell r0 "CANCELLED_FLAG" := by
  unfold airlineStage at hr
  split at hr
  · simp only [renameCol, List.mem_map] at hr
    obtain ⟨r0, h0, rfl⟩ := hr
    exact ⟨r0, h0, getCell_renameRow _ _ _ _ (by decide) (by decide)⟩
  · split at hr
    · simp only [renameCol, List.mem_map] at hr
      obtain ⟨r0, h0, rfl⟩ := hr
      exact ⟨r0, h0, getCell_renameRow _ _ _ _ (by decide) (by decide)⟩
    · exact ⟨r, hr, rfl⟩

theorem flagcol_airlineStage (t : Table) (h : "CANCELLED_FLAG" ∈ t.cols) :
    "CANCELLED_FLAG" ∈ (airlineStage t).cols := by
  unfold airlineStage
  split
  · exact mem_cols_renameCol _ _ _ h (by decide)
  · split
    · exact mem_cols_renameCol _ _ _ h (by decide)
    · exact h

theorem flag_projectStage (t : Table) (r : Row) (hr : r ∈ (projectStage t).rows)
    (h : "CANCELLED_FLAG" ∈ t.cols) :
    ∃ r0 ∈ t.rows, getCell r "CANCELLED_FLAG" = getCell r0 "CANCELLED_FLAG" := by
  unfold projectStage at hr
  simp only [List.mem_map] at hr
  obtain ⟨r0, h0, rfl⟩ := hr
  refine ⟨r0, h0, ?_⟩
  rw [getCell_projRow, if_pos]
  rw [List.mem_filter]
  exact ⟨by decide, by simpa using h⟩

theorem hhmmCell_unfold (d tc : Scalar) :
    hhmmCell d tc =
      (if isDigitStr (padCode tc) then
        (match d with
         | .dt t => Scalar.dt (truncDay t + 60 * (codeHH tc : ℤ) + (codeMM tc : ℤ))
         | _ => Scalar.nat_)
      else Scalar.nat_) := rfl

theorem flagcol_cancelStage (t : Table) : "CANCELLED_FLAG" ∈ (cancelStage t).cols := by
  unfold cancelStage
  cases t.cols.find? hasCancelSub <;> exact (mem_cols_addCol _ _ _).mpr (Or.inr rfl)

/-! ## Claim theorems -/

/-- C1 (amended): for every input flight table, every row of the prepared
flight table carries a `CANCELLED_FLAG` that is a non-missing integer; when
no input column name contains `CANCEL` (the inferred path) the flag is
exactly 0 or 1.  (With an explicit `CANCEL` column the flag is the
truncated numeric coercion of that column and can leave `{0,1}`, see the
counterexample.) -/
theorem cancelled_flag_nonmissing_integer (t : Table) (r : Row)
    (hr : r ∈ (flightsPrep t).rows) :
    ∃ k : ℤ, getCell r "CANCELLED_FLAG" = Scalar.int k ∧
      ((∀ c ∈ t.cols, hasCancelSub c = false) → (k = 0 ∨ k = 1)) := by
  unfold flightsPrep at hr
  obtain ⟨r1, h1, e1⟩ :=
    flag_projectStage _ _ hr (flagcol_airlineStage _ (flagcol_cancelStage _))
  obtain ⟨r2, h2, e2⟩ := flag_airlineStage _ _ h1
  obtain ⟨k, hk, h01⟩ := flag_cancelStage _ _ h2
  exact ⟨k, by rw [e1, e2, hk], fun hnone => h01 (find_cancel_none t hnone)⟩

/-- Witness for C1's theorem at a concrete table with no cancellation
column: the single output row is flagged 1 (both actual timestamps
missing), and the theorem applies. -/
theorem cancelled_flag_nonmissing_integer_witness :
    [("ORIGIN", Scalar.str "SEA"), ("DEP_DELAY_MIN", Scalar.na),
      ("CANCELLED_FLAG", Scalar.int 1)] ∈ (flightsPrep noDateFlights).rows ∧
    ∃ k : ℤ, getCell [("ORIGIN", Scalar.str "SEA"), ("DEP_DELAY_MIN", Scalar.na),
      ("CANCELLED_FLAG", Scalar.int 1)] "CANCELLED_FLAG" = Scalar.int k ∧
      ((∀ c ∈ noDateFlights.cols, hasCancelSub c = false) → (k = 0 ∨ k = 1)) :=
  ⟨by decide, cancelled_flag_nonmissing_integer noDateFlights _ (by decide)⟩

/-- C1 counterexample: with an explicit column named `CANCELLED` holding
the numeric value 2, the derived flag is 2 — neither 0 nor 1 — so the
claim "the flag is exactly 0 or 1" fails on the coerced path. -/
theorem cancelled_flag_two_counterexample :
    (flightsPrep cancelTwoTable).rows.map (fun r => getCell r "CANCELLED_FLAG")
        = [Scalar.int 2] ∧ Scalar.int 2 ≠ Scalar.int 0 ∧ Scalar.int 2 ≠ Scalar.int 1 := by
  decide

/-- C2 counterexample: when the weather table has a date column but no
numeric column, aggregation falls back to the raw table; with two weather
rows on the same date, the left merge emits two rows for a one-row flight
table, so the merged row count exceeds the flight row count. -/
theorem merge_duplicates_counterexample :
    (flightsPrep oneFlightTable).rows.length = 1 ∧
    (mergeStep (flightsPrep oneFlightTable) (weatherPrep dupDateWeather)).rows.length = 2 := by
  decide

/-- C4: on a flight table with neither a date column nor year/month/day
columns, no `FL_DATE` is ever derived and the derived-columns step reads
`m["FL_DATE"]` unguarded, so the run aborts with a `KeyError` instead of
degrading to missing values. -/
theorem pipeline_keyerror_without_date :
    pipeline noDateFlights oneDayWeather = .error "KeyError: FL_DATE" := by decide

/-- C8 counterexample: calling `hhmm_to_datetime` with the date sequence
absent evaluates `date_series.index` on `None` and raises, instead of
returning a sequence of missing timestamps. -/
theorem hhmm_none_date_counterexample :
    hhmm_to_datetime none (some [Scalar.int 530])
      = .error "AttributeError: NoneType has no attribute index" := rfl

/-- C8 (amended): when the time sequence is absent and the date sequence
is present, `hhmm_to_datetime` returns a sequence of missing timestamps of
the same length as the date sequence, without raising; when the date
sequence is absent the call raises instead. -/
theorem hhmm_time_none_all_missing (ds : List Scalar) :
    hhmm_to_datetime (some ds) none = .ok (ds.map (fun _ => Scalar.nat_)) ∧
      (ds.map (fun _ => Scalar.nat_)).length = ds.length :=
  ⟨rfl, by simp⟩

theorem trunc_whole_day (D : ℤ) : truncDay (1440 * D) = 1440 * D := by
  unfold truncDay
  rw [Int.mul_fdiv_cancel_left _ (by norm_num)]

theorem hhmm_batch_valid (ds ts : List Scalar) (i : ℕ) (hi : i < ds.length)
    (hts : i < ts.length) (hdt : ds.all Scalar.isDtLike = true) (D : ℤ)
    (hD : ds[i] = Scalar.dt (1440 * D))
    (hdig : isDigitStr (padCode ts[i]) = true) :
    ∃ out, hhmm_to_datetime (some ds) (some ts) = .ok out ∧
      out[i]? = some (Scalar.dt (1440 * D + 60 * (codeHH ts[i] : ℤ) + (codeMM ts[i] : ℤ))) := by
  refine ⟨hhmmList ds ts, rfl, ?_⟩
  unfold hhmmList
  rw [if_pos hdt]
  have hzip : i < (List.zipWith hhmmCell ds ts).length := by
    rw [List.length_zipWith]; omega
  rw [List.getElem?_eq_getElem hzip, List.getElem_zipWith]
  rw [hD, hhmmCell_unfold, if_pos hdig]
  show some (Scalar.dt (truncDay (1440 * D) + 60 * (codeHH ts[i] : ℤ) + (codeMM ts[i] : ℤ))) = _
  rw [trunc_whole_day]

/-- C3: for every batch over a datetime-typed date series, a row whose
date is the calendar date `D` and whose time code pads to a 4-character
all-digit string (value in 0000-2359, i.e. hour ≤ 23 and minute ≤ 59)
yields the timestamp at day `D`, hour = first two padded digits, minute =
last two padded digits; in particular code 0 yields `D` at 00:00. -/
theorem hhmm_valid_code_exact (ds ts : List Scalar) (i : ℕ) (hi : i < ds.length)
    (hts : i < ts.length) (hdt : ds.all Scalar.isDtLike = true) (D : ℤ)
    (hD : ds[i] = Scalar.dt (1440 * D))
    (hdig : isDigitStr (padCode ts[i]) = true)
    (_hlen : (padCode ts[i]).length = 4)
    (_hhh : codeHH ts[i] ≤ 23) (_hmin : codeMM ts[i] ≤ 59) :
    ∃ out, hhmm_to_datetime (some ds) (some ts) = .ok out ∧
      out[i]? = some (Scalar.dt (1440 * D + 60 * (codeHH ts[i] : ℤ) + (codeMM ts[i] : ℤ))) :=
  hhmm_batch_valid ds ts i hi hts hdt D hD hdig

/-- Witness for C3: date = day 0, code 530 gives 05:30, i.e. minute 330 of
the day; code 0 gives 00:00 exactly. -/
theorem hhmm_valid_code_exact_witness :
    (∃ out, hhmm_to_datetime (some [Scalar.dt 0]) (some [Scalar.int 530]) = .ok out ∧
      out[0]? = some (Scalar.dt (1440 * 0 + 60 * (codeHH (Scalar.int 530) : ℤ)
        + (codeMM (Scalar.int 530) : ℤ)))) ∧
    (1440 * 0 + 60 * (codeHH (Scalar.int 530) : ℤ) + (codeMM (Scalar.int 530) : ℤ)) = 330 ∧
    hhmmCell (Scalar.dt 0) (Scalar.int 0) = Scalar.dt 0 :=
  ⟨hhmm_valid_code_exact [Scalar.dt 0] [Scalar.int 530] 0 (by decide) (by decide) (by decide)
      0 (by decide) (by decide) (by decide) (by decide) (by decide),
    by decide, by decide⟩

/-- C9: a 4-digit all-digit code is decomposed with no range check, so an
out-of-range code like 2400 or 9999 still yields a non-missing timestamp
equal to the date plus `hh` hours plus `mm` minutes, rolling past
midnight into subsequent days. -/
theorem hhmm_out_of_range_rolls (ds ts : List Scalar) (i : ℕ) (hi : i < ds.length)
    (hts : i < ts.length) (hdt : ds.all Scalar.isDtLike = true) (D : ℤ)
    (hD : ds[i] = Scalar.dt (1440 * D))
    (hdig : isDigitStr (padCode ts[i]) = true) :
    ∃ out, hhmm_to_datetime (some ds) (some ts) = .ok out ∧
      out[i]? = some (Scalar.dt (1440 * D + 60 * (codeHH ts[i] : ℤ) + (codeMM ts[i] : ℤ))) ∧
      (Scalar.dt (1440 * D + 60 * (codeHH ts[i] : ℤ) + (codeMM ts[i] : ℤ))).isMissing = false := by
  obtain ⟨out, h1, h2⟩ := hhmm_batch_valid ds ts i hi hts hdt D hD hdig
  exact ⟨out, h1, h2, rfl⟩

/-- Witness for C9: code 9999 on day 0 yields minute 6039 = 99 hours and
99 minutes past midnight, four days later, not a missing value. -/
theorem hhmm_out_of_range_rolls_witness :
    (∃ out, hhmm_to_datetime (some [Scalar.dt 0]) (some [Scalar.int 9999]) = .ok out ∧
      out[0]? = some (Scalar.dt (1440 * 0 + 60 * (codeHH (Scalar.int 9999) : ℤ)
        + (codeMM (Scalar.int 9999) : ℤ))) ∧
      (Scalar.dt (1440 * 0 + 60 * (codeHH (Scalar.int 9999) : ℤ)
        + (codeMM (Scalar.int 9999) : ℤ))).isMissing = false) ∧
    (1440 * 0 + 60 * (codeHH (Scalar.int 9999) : ℤ) + (codeMM (Scalar.int 9999) : ℤ)) = 6039 :=
  ⟨hhmm_out_of_range_rolls [Scalar.dt 0] [Scalar.int 9999] 0 (by decide) (by decide)
      (by decide) 0 (by decide) (by decide), by decide⟩

/-- C5: in a batch over a datetime-typed date series, each row's result is
a function of that row's date and code cells alone (so invalid rows cannot
change any other row), and a row whose padded code is not all digits gets
a missing timestamp while the call still returns normally. -/
theorem hhmm_invalid_row_isolated (ds ts : List Scalar) (i : ℕ) (hi : i < ds.length)
    (hts : i < ts.length) (hdt : ds.all Scalar.isDtLike = true) :
    ∃ out, hhmm_to_datetime (some ds) (some ts) = .ok out ∧
      out[i]? = some (hhmmCell ds[i] ts[i]) ∧
      (isDigitStr (padCode ts[i]) = false → out[i]? = some Scalar.nat_) := by
  refine ⟨hhmmList ds ts, rfl, ?_, ?_⟩
  · unfold hhmmList
    rw [if_pos hdt]
    have hzip : i < (List.zipWith hhmmCell ds ts).length := by
      rw [List.length_zipWith]; omega
    rw [List.getElem?_eq_getElem hzip, List.getElem_zipWith]
  · intro hbad
    unfold hhmmList
    rw [if_pos hdt]
    have hzip : i < (List.zipWith hhmmCell ds ts).length := by
      rw [List.length_zipWith]; omega
    rw [List.getElem?_eq_getElem hzip, List.getElem_zipWith]
    rw [hhmmCell_unfold, if_neg (by simp [hbad])]

/-- Witness for C5: a batch holding one non-numeric code and one valid
code; the bad row yields `NaT` while, as a separate check, the whole batch
evaluates with the valid row intact at 05:30. -/
theorem hhmm_invalid_row_isolated_witness :
    (∃ out, hhmm_to_datetime (some [Scalar.dt 0, Scalar.dt 0])
        (some [Scalar.str "abc", Scalar.int 530]) = .ok out ∧
      out[0]? = some (hhmmCell (Scalar.dt 0) (Scalar.str "abc")) ∧
      (isDigitStr (padCode (Scalar.str "abc")) = false → out[0]? = some Scalar.nat_)) ∧
    hhmmList [Scalar.dt 0, Scalar.dt 0] [Scalar.str "abc", Scalar.int 530]
      = [Scalar.nat_, Scalar.dt 330] :=
  ⟨hhmm_invalid_row_isolated [Scalar.dt 0, Scalar.dt 0] [Scalar.str "abc", Scalar.int 530]
      0 (by decide) (by decide) (by decide), by decide⟩

theorem numGT_iff (v : Scalar) (b : ℚ) :
    numGT v b = true ↔ ∃ q : ℚ, v.numOf = some q ∧ b < q := by
  cases v <;> simp [numGT, Scalar.numOf]

/-- C6: for every table reaching the derived-columns step, every output
row's `LONG_DELAY_FLAG` is 0 or 1, and it is 1 exactly when the row's
(re-coerced) numeric delay-in-minutes is strictly greater than 15; a
delay of exactly 15 and a missing delay both give 0, with no error. -/
theorem long_delay_flag_strict_gt15 (t : Table) (r : Row)
    (hr : r ∈ rowsOfOk (deriveStep t)) :
    (getCell r "LONG_DELAY_FLAG" = Scalar.int 0 ∨ getCell r "LONG_DELAY_FLAG" = Scalar.int 1) ∧
    (getCell r "LONG_DELAY_FLAG" = Scalar.int 1 ↔
      ∃ q : ℚ, (getCell r "DEP_DELAY_MIN").numOf = some q ∧ 15 < q) := by
  unfold deriveStep at hr
  split at hr
  · exact absurd hr (by simp [rowsOfOk])
  · split at hr
    · exact absurd hr (by simp [rowsOfOk])
    · unfold rowsOfOk flagStep addCol at hr
      simp only [List.mem_map] at hr
      obtain ⟨r0, _, rfl⟩ := hr
      rw [getCell_setCell_same, getCell_setCell_ne _ _ _ _ (by decide)]
      by_cases hgt : numGT (getCell r0 "DEP_DELAY_MIN") 15 = true
      · rw [if_pos hgt]
        exact ⟨Or.inr rfl, iff_of_true rfl ((numGT_iff _ _).mp hgt)⟩
      · rw [if_neg hgt]
        refine ⟨Or.inl rfl, iff_of_false (by simp) ?_⟩
        rw [← numGT_iff]
        exact hgt

/-- Witness for C6 at a one-row table whose delay is 16 minutes: the
derivation succeeds and the theorem applies to the produced row, whose
flag is 1. -/
theorem long_delay_flag_strict_gt15_witness :
    (getCell [("FL_DATE", Scalar.dt 0), ("DEP_DELAY_MIN", Scalar.num 16),
        ("YEAR_MONTH", Scalar.int 23640), ("LONG_DELAY_FLAG", Scalar.int 1)]
        "LONG_DELAY_FLAG" = Scalar.int 0 ∨
      getCell [("FL_DATE", Scalar.dt 0), ("DEP_DELAY_MIN", Scalar.num 16),
        ("YEAR_MONTH", Scalar.int 23640), ("LONG_DELAY_FLAG", Scalar.int 1)]
        "LONG_DELAY_FLAG" = Scalar.int 1) ∧
    (getCell [("FL_DATE", Scalar.dt 0), ("DEP_DELAY_MIN", Scalar.num 16),
        ("YEAR_MONTH", Scalar.int 23640), ("LONG_DELAY_FLAG", Scalar.int 1)]
        "LONG_DELAY_FLAG" = Scalar.int 1 ↔
      ∃ q : ℚ, (getCell [("FL_DATE", Scalar.dt 0), ("DEP_DELAY_MIN", Scalar.num 16),
        ("YEAR_MONTH", Scalar.int 23640), ("LONG_DELAY_FLAG", Scalar.int 1)]
        "DEP_DELAY_MIN").numOf = some q ∧ 15 < q) :=
  long_delay_flag_strict_gt15 delay16Table _ (by decide)

theorem insertAsc_perm (x : ℤ) (l : List ℤ) : (insertAsc x l).Perm (x :: l) := by
  induction l with
  | nil => exact List.Perm.refl _
  | cons y ys ih =>
    unfold insertAsc
    split
    · exact List.Perm.refl _
    · exact (ih.cons y).trans (List.Perm.swap x y ys)

theorem sortAsc_perm (l : List ℤ) : (sortAsc l).Perm l := by
  induction l with
  | nil => exact List.Perm.refl _
  | cons x xs ih => exact (insertAsc_perm x (sortAsc xs)).trans (ih.cons x)

theorem keyOf_eq_some (v : Scalar) (k : ℤ) : keyOf v = some k ↔ v = Scalar.dt k := by
  cases v <;> simp [keyOf]

theorem getCell_keyedMap (cs : List String) (f : String → Scalar) (c : String) :
    getCell (cs.map (fun c0 => (c0, f c0))) c = if c ∈ cs then f c else Scalar.na := by
  induction cs with
  | nil => simp [getCell]
  | cons c0 rest ih =>
    by_cases hc : c0 = c
    · subst hc; simp [getCell_cons]
    · simp [getCell_cons, hc, ih, Ne.symm hc]

theorem meanCol_eq_specMean (rows : List Row) (c : String) :
    meanCol rows c = specMean (rows.filterMap (fun r => (getCell r c).numOf)) := rfl


/-- C7: whenever the weather table aggregates (some numeric column and a
date column exist), the aggregate has at most one row per distinct
calendar date — the dates of its rows are pairwise distinct — and each
selected numeric column of an aggregate row equals the arithmetic mean of
the available values of that column over the normalized weather rows
sharing that row's date. -/
theorem wx_agg_unique_dates_mean (wx : Table)
    (h1 : wxNumericCols (wxNorm wx) ≠ [])
    (h2 : "DATE" ∈ (wxNorm wx).cols) :
    ((weatherPrep wx).rows.map (fun r => getCell r "DATE")).Nodup ∧
    ∀ r ∈ (weatherPrep wx).rows, ∃ k : ℤ, getCell r "DATE" = Scalar.dt k ∧
      ∀ c ∈ wxNumericCols (wxNorm wx), c ≠ "DATE" →
        getCell r c = specMean (dateGroupVals (wxNorm wx) k c) := by
  unfold weatherPrep
  rw [if_pos ⟨h1, h2⟩]
  unfold groupbyMean
  constructor
  · rw [List.map_map]
    have hn : (sortAsc (((wxNorm wx).rows.filterMap
        (fun r => keyOf (getCell r "DATE"))).dedup)).Nodup :=
      ((sortAsc_perm _).nodup_iff).mpr (List.nodup_dedup _)
    have : ((fun r => getCell r "DATE") ∘ (fun k =>
        ("DATE", Scalar.dt k) :: (wxNumericCols (wxNorm wx)).map (fun c =>
          (c, meanCol ((wxNorm wx).rows.filter
            (fun r => keyOf (getCell r "DATE") = some k)) c))))
        = fun k => Scalar.dt k := by
      funext k
      simp [getCell_cons]
    rw [this]
    exact hn.map (fun a b hab => Scalar.dt.inj hab)
  · intro r hr
    simp only [List.mem_map] at hr
    obtain ⟨k, hk, rfl⟩ := hr
    refine ⟨k, by simp [getCell_cons], ?_⟩
    intro c hc hcd
    rw [getCell_cons, if_neg (fun h => hcd h.symm), getCell_keyedMap, if_pos hc,
      meanCol_eq_specMean]
    congr 1
    unfold dateGroupVals
    congr 1
    apply List.filter_congr
    intro r0 _
    exact decide_eq_decide.mpr (keyOf_eq_some _ _)

/-- Witness for C7 at the spec's own example: two rows on one date with
`TMAX` 50 and 60 and one row on another date with 70; the theorem applies,
the group of day 0 collects exactly the values 60 and 50, and their
spec-side mean is 55. -/
theorem wx_agg_unique_dates_mean_witness :
    (((weatherPrep meanExampleWeather).rows.map (fun r => getCell r "DATE")).Nodup ∧
      ∀ r ∈ (weatherPrep meanExampleWeather).rows, ∃ k : ℤ,
        getCell r "DATE" = Scalar.dt k ∧
        ∀ c ∈ wxNumericCols (wxNorm meanExampleWeather), c ≠ "DATE" →
          getCell r c = specMean (dateGroupVals (wxNorm meanExampleWeather) k c)) ∧
    dateGroupVals (wxNorm meanExampleWeather) 0 "TMAX" = [60, 50] ∧
    specMean [60, 50] = Scalar.num 55 :=
  ⟨wx_agg_unique_dates_mean meanExampleWeather (by decide) (by decide),
    by decide,
    by unfold specMean; norm_num⟩

/-! ## Lemmas about the merge -/

theorem hasKey_iff_mem_keys (r : Row) (c : String) :
    hasKey r c = true ↔ c ∈ r.map Prod.fst := by
  simp only [hasKey, List.any_eq_true, decide_eq_true_eq, List.mem_map]

theorem length_filter_le_one_of_nodup {α β : Type} [DecidableEq β]
    (f : α → Option β) (l : List α) (hnd : (l.filterMap f).Nodup) (v : β) :
    (l.filter (fun x => f x = some v)).length ≤ 1 := by
  induction l with
  | nil => simp
  | cons a rest ih =>
    cases hfa : f a with
    | none =>
      rw [List.filterMap_cons_none hfa] at hnd
      have := ih hnd
      rw [List.filter_cons]
      split
      · rename_i hp
        simp only [decide_eq_true_eq] at hp
        rw [hfa] at hp
        exact Option.noConfusion hp
      · exact this
    | some w =>
      rw [List.filterMap_cons_some hfa] at hnd
      have hnotin := (List.nodup_cons.mp hnd).1
      have hrest := (List.nodup_cons.mp hnd).2
      rw [List.filter_cons]
      split
      · rename_i hp
        simp only [decide_eq_true_eq] at hp
        rw [hfa] at hp
        obtain rfl : w = v := Option.some.inj hp
        have : (rest.filter (fun x => f x = some w)) = [] := by
          rw [List.filter_eq_nil_iff]
          intro x hx hfx
          simp only [decide_eq_true_eq] at hfx
          exact hnotin (List.mem_filterMap.mpr ⟨x, hx, hfx⟩)
        simp [this]
      · exact (ih hrest).trans (by norm_num)

theorem scalarEq_of_dt (cell k : Scalar) (h : cell.isDt = true) :
    scalarEq cell k = true ↔ ∃ v : ℤ, cell = Scalar.dt v ∧ k = Scalar.dt v := by
  cases cell <;> cases k <;> simp_all [scalarEq, Scalar.isDt, eq_comm]

theorem merge_matches_le_one (r : Table) (k : Scalar)
    (hnd : (r.rows.filterMap (fun rr => keyOf (getCell rr "DATE"))).Nodup)
    (hdt : ∀ rr ∈ r.rows, (getCell rr "DATE").isDt = true) :
    (r.rows.filter (fun rr => scalarEq (getCell rr "DATE") k)).length ≤ 1 := by
  have hempty : ∀ k' : Scalar, (∀ w : ℤ, k' ≠ Scalar.dt w) →
      (r.rows.filter (fun rr => scalarEq (getCell rr "DATE") k')) = [] := by
    intro k' hk'
    rw [List.filter_eq_nil_iff]
    intro rr hrr hp
    obtain ⟨v, _, hv⟩ := (scalarEq_of_dt _ _ (hdt rr hrr)).mp hp
    exact hk' v hv
  cases k
  case dt v =>
    have heq : (r.rows.filter (fun rr => scalarEq (getCell rr "DATE") (Scalar.dt v)))
        = (r.rows.filter (fun rr => keyOf (getCell rr "DATE") = some v)) := by
      apply List.filter_congr
      intro rr hrr
      have hd := hdt rr hrr
      cases hcell : getCell rr "DATE" <;> simp_all [scalarEq, keyOf, Scalar.isDt]
    rw [heq]
    exact length_filter_le_one_of_nodup _ _ hnd v
  all_goals {
    rw [hempty _ (fun w h => Scalar.noConfusion h)]
    simp
  }

theorem flatMap_eq_map_of_single {α β : Type} (l : List α) (f : α → List β) (g : α → β)
    (h : ∀ a ∈ l, f a = [g a]) : l.flatMap f = l.map g := by
  induction l with
  | nil => rfl
  | cons a rest ih =>
    rw [List.flatMap_cons, List.map_cons, h a (List.mem_cons_self a rest),
      ih (fun x hx => h x (List.mem_cons_of_mem a hx))]
    rfl

theorem pdMergeLeft_rows_eq (l r : Table) (lk rk : String)
    (hle : ∀ lr ∈ l.rows,
      (r.rows.filter (fun rr => scalarEq (getCell rr rk) (getCell lr lk))).length ≤ 1) :
    (pdMergeLeft l r lk rk).rows = l.rows.map (fun lr =>
      match r.rows.filter (fun rr => scalarEq (getCell rr rk) (getCell lr lk)) with
      | [] => lr ++ (r.cols.map (sfx l.cols)).map (fun c => (c, Scalar.na))
      | rr :: _ => lr ++ r.cols.map (fun c => (sfx l.cols c, getCell rr c))) := by
  apply flatMap_eq_map_of_single
  intro lr hlr
  cases hf : r.rows.filter (fun rr => scalarEq (getCell rr rk) (getCell lr lk)) with
  | nil => rfl
  | cons rr rest =>
    have : rest = [] := by
      have := hle lr hlr
      rw [hf] at this
      simpa using this
    subst this
    rfl

/-- C2 (amended): whenever the weather-side table's `DATE` keys are
non-missing datetimes with pairwise-distinct values — which the
aggregation path guarantees, since `groupby` drops missing dates and
emits one row per distinct date — the left merge emits exactly one output
row per flight row (count preserved), and a flight row with no matching
weather date (including a flight row with missing `FL_DATE`, whose null
key can only match a null weather key, of which there are none here) gets
`NaN` in every weather-derived column, while a matched row carries the
matching weather row's cells.  In the fallback path (raw weather used,
duplicate or missing dates possible) rows can be duplicated, see the
counterexample. -/
theorem merge_left_join_preserves (l r : Table)
    (hnd : (r.rows.filterMap (fun rr => keyOf (getCell rr "DATE"))).Nodup)
    (hdt : ∀ rr ∈ r.rows, (getCell rr "DATE").isDt = true)
    (hk : "FL_DATE" ∈ l.cols) (hrc : "DATE" ∈ r.cols)
    (hal : ∀ lr ∈ l.rows, lr.map Prod.fst = l.cols)
    (hfr : ∀ c ∈ r.cols, sfx l.cols c ∉ l.cols) :
    (mergeStep l r).rows.length = l.rows.length ∧
    ∀ o ∈ (mergeStep l r).rows, ∃ lr ∈ l.rows,
      ((r.rows.filter (fun rr => scalarEq (getCell rr "DATE") (getCell lr "FL_DATE"))) = [] ∧
        o = lr ++ (r.cols.map (sfx l.cols)).map (fun c => (c, Scalar.na)) ∧
        ∀ c ∈ r.cols, getCell o (sfx l.cols c) = Scalar.na) ∨
      (∃ rr ∈ r.rows, scalarEq (getCell rr "DATE") (getCell lr "FL_DATE") = true ∧
        o = lr ++ r.cols.map (fun c => (sfx l.cols c, getCell rr c))) := by
  have hle : ∀ lr ∈ l.rows,
      (r.rows.filter (fun rr => scalarEq (getCell rr "DATE") (getCell lr "FL_DATE"))).length ≤ 1 :=
    fun lr _ => merge_matches_le_one r _ hnd hdt
  unfold mergeStep
  rw [if_pos ⟨hk, hrc⟩, pdMergeLeft_rows_eq l r _ _ hle]
  constructor
  · exact List.length_map _ _
  · intro o ho
    simp only [List.mem_map] at ho
    obtain ⟨lr, hlr, rfl⟩ := ho
    refine ⟨lr, hlr, ?_⟩
    cases hf : r.rows.filter (fun rr => scalarEq (getCell rr "DATE") (getCell lr "FL_DATE")) with
    | nil =>
      left
      refine ⟨rfl, rfl, ?_⟩
      intro c hc
      have hhk : ¬ (hasKey lr (sfx l.cols c) = true) := fun hh => by
        have hmemk := (hasKey_iff_mem_keys lr (sfx l.cols c)).mp hh
        rw [hal lr hlr] at hmemk
        exact hfr c hc hmemk
      show getCell (lr ++ (r.cols.map (sfx l.cols)).map (fun c0 => (c0, Scalar.na)))
        (sfx l.cols c) = Scalar.na
      rw [getCell_append, if_neg hhk, getCell_keyedMap]
      split <;> rfl
    | cons rr rest =>
      right
      have hmem : rr ∈ r.rows.filter
          (fun rr => scalarEq (getCell rr "DATE") (getCell lr "FL_DATE")) := by
        rw [hf]
        exact List.mem_cons_self _ _
      have hmem' := List.mem_filter.mp hmem
      exact ⟨rr, hmem'.1, hmem'.2, rfl⟩

/-- Witness for C2's amended theorem: two flight rows, a one-row weather
table; the merge keeps both flight rows, attaching `TMAX` 70 to the
matching date and `NaN` to the unmatched one. -/
theorem merge_left_join_preserves_witness :
    ((mergeStep twoFlights oneDayWeather).rows.length = twoFlights.rows.length ∧
      ∀ o ∈ (mergeStep twoFlights oneDayWeather).rows, ∃ lr ∈ twoFlights.rows,
        ((oneDayWeather.rows.filter
            (fun rr => scalarEq (getCell rr "DATE") (getCell lr "FL_DATE"))) = [] ∧
          o = lr ++ (oneDayWeather.cols.map (sfx twoFlights.cols)).map
            (fun c => (c, Scalar.na)) ∧
          ∀ c ∈ oneDayWeather.cols, getCell o (sfx twoFlights.cols c) = Scalar.na) ∨
        (∃ rr ∈ oneDayWeather.rows,
          scalarEq (getCell rr "DATE") (getCell lr "FL_DATE") = true ∧
          o = lr ++ oneDayWeather.cols.map
            (fun c => (sfx twoFlights.cols c, getCell rr c)))) ∧
    (mergeStep twoFlights oneDayWeather).rows.map (fun o => getCell o "TMAX")
      = [Scalar.int 70, Scalar.na] :=
  ⟨merge_left_join_preserves twoFlights oneDayWeather (by decide) (by decide) (by decide)
      (by decide) (by decide) (by decide), by decide⟩

/-! ## Lemmas for the reconstructed-delay path -/

theorem stripDotZeros_of_digits (s : String) (hd : s.data.all Char.isDigit = true) :
    stripDotZeros s = s := by
  unfold stripDotZeros
  rw [if_neg]
  intro hcond
  have hhead := (Bool.and_eq_true _ _).mp hcond |>.2
  simp only [decide_eq_true_eq] at hhead
  have hmem : '.' ∈ s.data.reverse.dropWhile (· = '0') :=
    List.mem_of_mem_head? (by rw [hhead]; rfl)
  have hmem2 : '.' ∈ s.data := by
    have := (List.dropWhile_sublist (l := s.data.reverse) (p := (· = '0'))).mem hmem
    simpa using this
  have := List.all_eq_true.mp hd '.' hmem2
  simp at this

theorem pyZfill_of_long (s : String) (h : 4 ≤ s.length) : pyZfill s 4 = s := by
  unfold pyZfill
  rw [if_pos h]

theorem padCode_str_of_digits (s : String) (h4 : s.data.length = 4)
    (hd : s.data.all Char.isDigit = true) : padCode (Scalar.str s) = s := by
  unfold padCode pyStr
  rw [stripDotZeros_of_digits s hd, pyZfill_of_long]
  show 4 ≤ s.data.length
  omega

theorem isDigitStr_of_digits (s : String) (h4 : s.data.length = 4)
    (hd : s.data.all Char.isDigit = true) : isDigitStr s = true := by
  unfold isDigitStr
  rw [hd]
  cases hdata : s.data with
  | nil => rw [hdata] at h4; simp at h4
  | cons c cs => simp

theorem hhmmCell_str_digits (D : ℤ) (s : String) (h4 : s.data.length = 4)
    (hd : s.data.all Char.isDigit = true) :
    hhmmCell (Scalar.dt (1440 * D)) (Scalar.str s)
      = Scalar.dt (1440 * D + 60 * (codeHH (Scalar.str s) : ℤ) + (codeMM (Scalar.str s) : ℤ)) := by
  rw [hhmmCell_unfold, if_pos]
  · show Scalar.dt (truncDay (1440 * D) + _ + _) = _
    rw [trunc_whole_day]
  · rw [padCode_str_of_digits s h4 hd]
    exact isDigitStr_of_digits s h4 hd

/-- C10: when the delay is computed from reconstructed timestamps (no
`DEP_DELAY` column), both departure timestamps are built on the same
calendar date `D`, so for any two valid 4-digit codes the computed delay
is the raw same-day difference of the two times-of-day — an actual time
earlier in the day than the scheduled one yields a negative delay with no
day-rollover correction. -/
theorem delay_same_day_no_rollover (D : ℤ) (s a : String)
    (hs4 : s.data.length = 4) (hsd : s.data.all Char.isDigit = true)
    (ha4 : a.data.length = 4) (had : a.data.all Char.isDigit = true) :
    (flightsPrep (codesTable D s a)).rows.map (fun r => getCell r "DEP_DELAY_MIN")
      = [Scalar.num (((60 * (codeHH (Scalar.str a) : ℤ) + (codeMM (Scalar.str a) : ℤ) : ℤ) : ℚ)
          - ((60 * (codeHH (Scalar.str s) : ℤ) + (codeMM (Scalar.str s) : ℤ) : ℤ) : ℚ))] := by
  have h2 : timeStage (flDateStage (codesTable D s a)) =
      ⟨["FL_DATE", "CRS_DEP_TIME", "DEP_TIME", "SCHED_DEP_DATETIME", "ACTUAL_DEP_DATETIME"],
       [[("FL_DATE", Scalar.dt (1440 * D)), ("CRS_DEP_TIME", Scalar.str s),
         ("DEP_TIME", Scalar.str a),
         ("SCHED_DEP_DATETIME", hhmmCell (Scalar.dt (1440 * D)) (Scalar.str s)),
         ("ACTUAL_DEP_DATETIME", hhmmCell (Scalar.dt (1440 * D)) (Scalar.str a))]]⟩ := rfl
  rw [hhmmCell_str_digits D s hs4 hsd, hhmmCell_str_digits D a ha4 had] at h2
  have h3 : flightsPrep (codesTable D s a)
      = projectStage (airlineStage (cancelStage (delayStage
          (timeStage (flDateStage (codesTable D s a)))))) := rfl
  rw [h3, h2]
  show [Scalar.num
      (((1440 * D + 60 * (codeHH (Scalar.str a) : ℤ) + (codeMM (Scalar.str a) : ℤ) : ℤ) : ℚ)
        - ((1440 * D + 60 * (codeHH (Scalar.str s) : ℤ) + (codeMM (Scalar.str s) : ℤ) : ℤ) : ℚ))]
    = _
  congr 1
  push_cast
  ring_nf

/-- Witness for C10 at the claim's example: scheduled 2350, actual 0010 on
the same date — the computed delay is 10 - 1430 = -1420 minutes, near
-1440, with no rollover correction. -/
theorem delay_same_day_no_rollover_witness :
    ((flightsPrep (codesTable 0 "2350" "0010")).rows.map (fun r => getCell r "DEP_DELAY_MIN")
      = [Scalar.num
          (((60 * (codeHH (Scalar.str "0010") : ℤ) + (codeMM (Scalar.str "0010") : ℤ) : ℤ) : ℚ)
            - ((60 * (codeHH (Scalar.str "2350") : ℤ)
                + (codeMM (Scalar.str "2350") : ℤ) : ℤ) : ℚ))]) ∧
    (((60 * (codeHH (Scalar.str "0010") : ℤ) + (codeMM (Scalar.str "0010") : ℤ) : ℤ) : ℚ)
      - ((60 * (codeHH (Scalar.str "2350") : ℤ) + (codeMM (Scalar.str "2350") : ℤ) : ℤ) : ℚ))
      = -1420 :=
  ⟨delay_same_day_no_rollover 0 "2350" "0010" (by decide) (by decide) (by decide) (by decide),
    by norm_num [(by decide : codeHH (Scalar.str "0010") = 0),
      (by decide : codeMM (Scalar.str "0010") = 10),
      (by decide : codeHH (Scalar.str "2350") = 23),
      (by decide : codeMM (Scalar.str "2350") = 50)]⟩
